import Mathlib

/-!
Shallow embedding of `platypus-simulate/tof_simulator.py`
(classes `SpectrumDist` and `ReflectSimulator`) from andyfaff/refnx-models.

Modelling conventions:
* Machine floats are modelled by `ℚ` (exact arithmetic); the one quantity
  produced by a square root (`ReflectSimulator.reflectivity`'s `dx`) lives
  in `ℝ`.
* The random draws consumed by `ReflectSimulator.run` (angular offsets,
  wavelengths, accept/reject uniforms, jitter noise) are passed in
  explicitly as a list of per-sample `Draw` records: a seeded RNG is a
  deterministic stream, so `run` becomes a pure function of the
  configuration, the prior accumulated state and that stream.
* External collaborators that are not part of this repository
  (`general.q`, the scipy spline integral, `ErrorProp.EPdiv`) are
  parameters of the embedding (fields `qOf`, argument `integ`, ...).
* numpy semantics embedded directly: `np.histogram` with explicit bin
  edges (half-open bins, last bin closed), `np.digitize` for increasing
  bins (`searchsorted` right: the number of edges `≤ x`), `np.interp`
  (clamped piecewise-linear interpolation).
* The `.astype(np.float32)` precision reduction on the stored kernel
  samples is not modelled (values are kept exact); it does not change
  how many samples are stored.
-/

/-- One Monte Carlo sample's random draws, in the order `run` consumes them:
`angular_dist.rvs`, `spectrum_dist.rvs`, `rng.uniform` (accept/reject
criterion), and the jitter noise (`standard_normal` or `uniform(-0.5, 0.5)`
depending on `force_gaussian`). -/
structure Draw where
  angleOffset : ℚ
  wavelength : ℚ
  criterion : ℚ
  noise : ℚ

/-- The configuration of a `ReflectSimulator`, immutable after `__init__`.
`dlambda`, `dtheta`, `rebin` are the stored fractional resolutions (the
constructor's percentage inputs divided by 100).  `model` is the external
reflectivity model `q ↦ r(q)` (evaluated with `x_err=0`), and `qOf` is the
external `general.q(angle, wavelength)` momentum-transfer relation. -/
structure Config where
  model : ℚ → ℚ
  qOf : ℚ → ℚ → ℚ
  angle : ℚ
  dlambda : ℚ
  dtheta : ℚ
  rebin : ℚ
  wavelength_bins : List ℚ
  force_gaussian : Bool

/-- The accumulated state mutated by `run`: per-bin direct-beam and
reflected-beam histograms and the resolution-kernel store `_res_kernel`
(a dict with keys `0 .. nbins-1` once populated; `[]` models the empty
dict present at construction). -/
structure SimState where
  direct : ℕ → ℕ
  reflected : ℕ → ℕ
  res_kernel : List (List ℚ)

/-- Zero-initialised accumulated state, as set up in
`ReflectSimulator.__init__`. -/
def initState : SimState :=
  { direct := fun _ => 0, reflected := fun _ => 0, res_kernel := [] }

/-- `np.histogram(xs, edges)` membership test for bin `i`: edges are
half-open `[e_i, e_{i+1})` except the last bin, which is closed. -/
def histBin (edges : List ℚ) (i : ℕ) (x : ℚ) : Bool :=
  if i + 2 ≤ edges.length then
    let lo := edges.getD i 0
    let hi := edges.getD (i + 1) 0
    if i + 2 = edges.length then decide (lo ≤ x ∧ x ≤ hi)
    else decide (lo ≤ x ∧ x < hi)
  else false

/-- `np.digitize(x, edges)` for monotonically increasing `edges`
(numpy's documented behaviour: `searchsorted(edges, x, side="right")`,
i.e. the number of edges `≤ x`). -/
def digitize (edges : List ℚ) (x : ℚ) : ℕ :=
  edges.countP (fun e => decide (e ≤ x))

/-- Wavelength jitter applied in `run`: `w * (1 + dlambda/2.3548 * noise)`
when `force_gaussian`, else `w * (1 + dlambda/0.68 * noise)`. -/
def jitteredWavelength (cfg : Config) (d : Draw) : ℚ :=
  if cfg.force_gaussian then
    d.wavelength * (1 + cfg.dlambda / 2.3548 * d.noise)
  else
    d.wavelength * (1 + cfg.dlambda / 0.68 * d.noise)

/-- The momentum transfer of one sample:
`general.q(angles + self.angle, wavelengths)` with the raw (unjittered)
wavelength. -/
def sampleQ (cfg : Config) (d : Draw) : ℚ :=
  cfg.qOf (cfg.angle + d.angleOffset) d.wavelength

/-- The accept/reject decision of `run`: `criterion < r` with
`r = model(q)`. -/
def acceptedSample (cfg : Config) (d : Draw) : Bool :=
  decide (d.criterion < cfg.model (sampleQ cfg d))

/-- The early-exit test guarding the resolution-kernel update:
`len(self._res_kernel) and np.min([len(v) ...]) > 500000`. -/
def capReached (st : SimState) : Bool :=
  !st.res_kernel.isEmpty &&
    st.res_kernel.all (fun l => decide (500000 < l.length))

/-- `self._res_kernel.get(i, np.array([]))`: the stored q samples of
wavelength bin `i` (empty when the key is absent). -/
def kernelGet (st : SimState) (i : ℕ) : List ℚ :=
  st.res_kernel.getD i []

/-- One call of `ReflectSimulator.run`: computes q, accept/reject, the
jittered wavelengths, adds the histogram of all jittered wavelengths to
`direct_beam` and of the accepted ones to `reflected_beam`, then (unless
`capReached`) appends each sample's q to the kernel entry of the
wavelength bin its jittered wavelength digitizes into (`bin_loc == i` for
loop index `i = 1 .. len(bins)-1`, stored at key `i-1`). -/
def run (cfg : Config) (st : SimState) (draws : List Draw) : SimState :=
  let jw := fun d => jitteredWavelength cfg d
  let direct := fun i =>
    st.direct i + draws.countP (fun d => histBin cfg.wavelength_bins i (jw d))
  let reflected := fun i =>
    st.reflected i +
      (draws.filter (fun d => acceptedSample cfg d)).countP
        (fun d => histBin cfg.wavelength_bins i (jw d))
  let kernel :=
    if capReached st then st.res_kernel
    else
      (List.range (cfg.wavelength_bins.length - 1)).map
        (fun i =>
          kernelGet st i ++
            (draws.filter
              (fun d => decide (digitize cfg.wavelength_bins (jw d) = i + 1))).map
              (fun d => sampleQ cfg d))
  { direct := direct, reflected := reflected, res_kernel := kernel }

/-- Fold a sequence of `run` calls over the freshly constructed state. -/
def runAll (cfg : Config) (batches : List (List Draw)) : SimState :=
  batches.foldl (fun st ds => run cfg st ds) initState

lemma countP_filter_le (l : List Draw) (p q : Draw → Bool) :
    (l.filter q).countP p ≤ l.countP p := by
  rw [List.countP_filter]
  exact List.countP_mono_left (fun d _ h => by
    simp only [Bool.and_eq_true] at h
    exact h.1)

lemma run_preserves_le (cfg : Config) (st : SimState) (ds : List Draw)
    (i : ℕ) (h : st.reflected i ≤ st.direct i) :
    (run cfg st ds).reflected i ≤ (run cfg st ds).direct i := by
  simp only [run]
  exact Nat.add_le_add h (countP_filter_le _ _ _)

/-- **C1.** After any sequence of `run` calls (any sample batches, any
configuration), the accumulated reflected-beam count in every bin `i` is
at most the direct-beam count in that bin: each run histograms the
accepted samples, a sublist of all samples, into the same bin edges. -/
theorem reflected_le_direct (cfg : Config) (batches : List (List Draw))
    (i : ℕ) : (runAll cfg batches).reflected i ≤ (runAll cfg batches).direct i := by
  suffices H : ∀ (st : SimState), st.reflected i ≤ st.direct i →
      (batches.foldl (fun st ds => run cfg st ds) st).reflected i ≤
        (batches.foldl (fun st ds => run cfg st ds) st).direct i by
    exact H initState le_rfl
  induction batches with
  | nil => intro st h; simpa using h
  | cons ds rest ih =>
      intro st h
      exact ih (run cfg st ds) (run_preserves_le cfg st ds i h)


/-- A concrete two-bin configuration (edges `[0, 1, 2]`) used to exercise
the resolution-kernel cap. -/
def cexConfig : Config :=
  { model := fun _ => 0, qOf := fun _ w => w, angle := 0,
    dlambda := 0, dtheta := 0, rebin := 0,
    wavelength_bins := [0, 1, 2], force_gaussian := false }

/-- A concrete accumulated state in which bin 0 already stores 500001
q samples (above the cap) while bin 1 stores none. -/
def cexState : SimState :=
  { direct := fun _ => 0, reflected := fun _ => 0,
    res_kernel := [List.replicate 500001 0, []] }

/-- A concrete sample whose jittered wavelength (1/2) falls into bin 0. -/
def cexDraw : Draw :=
  { angleOffset := 0, wavelength := 1/2, criterion := 0, noise := 0 }

/-- **C2, counterexample.** The per-bin reading of the cap is false: with
bin 0 already above the 500 000-sample cap but bin 1 below it, a further
`run` still grows bin 0's stored q-sample list (the code skips the kernel
update only when *every* bin is above the cap). -/
theorem res_kernel_percell_cap_cex :
    500000 < (kernelGet cexState 0).length ∧
    (kernelGet cexState 0).length <
      (kernelGet (run cexConfig cexState [cexDraw]) 0).length := by
  have h1 : kernelGet cexState 0 = List.replicate 500001 (0 : ℚ) := rfl
  have hcap : capReached cexState = false := by
    have hres : cexState.res_kernel = [List.replicate 500001 0, []] := rfl
    unfold capReached
    rw [hres, List.all_cons, List.all_cons, List.all_nil]
    have h2 : decide (500000 < ([] : List ℚ).length) = false := by decide
    rw [h2, Bool.false_and, Bool.and_false, Bool.and_false]
  have hker : kernelGet (run cexConfig cexState [cexDraw]) 0 =
      kernelGet cexState 0 ++ [sampleQ cexConfig cexDraw] := by
    show (run cexConfig cexState [cexDraw]).res_kernel.getD 0 [] = _
    simp only [run]
    rw [if_neg (by rw [hcap]; exact Bool.false_ne_true)]
    have hrange : List.range (cexConfig.wavelength_bins.length - 1) = [0, 1] := rfl
    rw [hrange, List.map_cons, List.map_cons, List.map_nil, List.getD_cons_zero]
    have hdig : (decide
        (digitize cexConfig.wavelength_bins
          (jitteredWavelength cexConfig cexDraw) = 0 + 1)) = true := by
      have hd : digitize cexConfig.wavelength_bins
          (jitteredWavelength cexConfig cexDraw) = 1 := by
        norm_num [digitize, cexConfig, cexDraw, jitteredWavelength,
          List.countP_cons, List.countP_nil]
      rw [hd]
      decide
    rw [List.filter_cons, hdig]
    simp only [if_true, List.filter_nil, List.map_cons, List.map_nil]
  refine ⟨?_, ?_⟩
  · rw [h1, List.length_replicate]; norm_num
  · rw [hker, List.length_append, h1, List.length_replicate]
    norm_num

/-- **C2, amended.** Once the cap condition of the code holds — the kernel
dict is non-empty and *every* bin's stored q-sample list is longer than
500 000 — a subsequent `run` call leaves the whole resolution-kernel
store unchanged. -/
theorem res_kernel_cap_stops_growth (cfg : Config) (st : SimState)
    (draws : List Draw) (h : capReached st = true) :
    (run cfg st draws).res_kernel = st.res_kernel := by
  simp only [run]
  rw [if_pos h]

/-- A concrete one-bin state with every bin above the cap. -/
def capState : SimState :=
  { direct := fun _ => 0, reflected := fun _ => 0,
    res_kernel := [List.replicate 500001 0] }

theorem res_kernel_cap_stops_growth_witness :
    capReached capState = true ∧
      (run cexConfig capState [cexDraw]).res_kernel = capState.res_kernel := by
  have hcap : capReached capState = true := by
    have hres : capState.res_kernel = [List.replicate 500001 0] := rfl
    unfold capReached
    rw [hres, List.all_cons, List.all_nil]
    have h2 : (decide (500000 < (List.replicate 500001 (0 : ℚ)).length)) = true := by
      rw [List.length_replicate]
      decide
    rw [h2]
    decide
  exact ⟨hcap, res_kernel_cap_stops_growth cexConfig capState [cexDraw] hcap⟩

/-- **C3.** `run` is a pure function of the configuration, the prior
accumulated state and the seeded random stream: identically configured
simulators fed the same stream (same seed) and sample count produce
identical accumulated states, hence bit-identical deltas in the
direct-beam, reflected-beam and resolution-kernel stores. -/
theorem run_deterministic (cfg₁ cfg₂ : Config) (st₁ st₂ : SimState)
    (ds₁ ds₂ : List Draw) (hc : cfg₁ = cfg₂) (hs : st₁ = st₂)
    (hd : ds₁ = ds₂) : run cfg₁ st₁ ds₁ = run cfg₂ st₂ ds₂ := by
  subst hc; subst hs; subst hd; rfl

theorem run_deterministic_witness :
    run cexConfig initState [cexDraw] = run cexConfig initState [cexDraw] :=
  run_deterministic cexConfig cexConfig initState initState
    [cexDraw] [cexDraw] rfl rfl rfl

lemma jitteredWavelength_eq (cfg : Config) (d : Draw) :
    jitteredWavelength cfg d =
      d.wavelength * (1 + cfg.dlambda /
        (if cfg.force_gaussian then 2.3548 else 0.68) * d.noise) := by
  cases h : cfg.force_gaussian <;> simp [jitteredWavelength, h]

/-- **C6.** Every sampled wavelength enters the histogram accumulation as
the jittered value `w * (1 + dlambda/2.3548 * g)` when `force_gaussian`
(`g` being that sample's standard-normal draw) and
`w * (1 + dlambda/0.68 * u)` otherwise (`u` being that sample's uniform
draw on `[-0.5, 0.5]`), where `dlambda` is the stored fractional
wavelength resolution. -/
theorem direct_beam_uses_jittered (cfg : Config) (st : SimState)
    (draws : List Draw) (i : ℕ) :
    (run cfg st draws).direct i = st.direct i +
      draws.countP (fun d => histBin cfg.wavelength_bins i
        (d.wavelength * (1 + cfg.dlambda /
          (if cfg.force_gaussian then 2.3548 else 0.68) * d.noise))) := by
  simp only [run, jitteredWavelength_eq]

/-- **C8.** A sample is accepted iff its per-sample uniform draw is
strictly below the reflectivity model's value at that sample's momentum
transfer, and exactly the accepted samples are histogrammed into the
reflected beam. -/
theorem acceptance_criterion (cfg : Config) (d : Draw) (st : SimState)
    (draws : List Draw) (i : ℕ) :
    (acceptedSample cfg d = true ↔
      d.criterion < cfg.model (cfg.qOf (cfg.angle + d.angleOffset) d.wavelength)) ∧
    (run cfg st draws).reflected i = st.reflected i +
      (draws.filter (fun e => acceptedSample cfg e)).countP
        (fun e => histBin cfg.wavelength_bins i (jitteredWavelength cfg e)) := by
  constructor
  · simp [acceptedSample, sampleQ]
  · simp only [run]

/-- Model of `scipy.stats.uniform(loc, scale)`: a uniform distribution
with support `[loc, loc + scale]`. -/
structure UniformDist where
  loc : ℚ
  scale : ℚ

def UniformDist.supportLo (u : UniformDist) : ℚ := u.loc

def UniformDist.supportHi (u : UniformDist) : ℚ := u.loc + u.scale

/-- The wavelength generator built in `__init__` when
`force_uniform_wavelength` is set:
`uniform(loc=lo_wavelength - 1, scale=hi_wavelength - lo_wavelength + 1)`. -/
def uniformSpectrumDist (lo_wavelength hi_wavelength : ℚ) : UniformDist :=
  { loc := lo_wavelength - 1, scale := hi_wavelength - lo_wavelength + 1 }

/-- **C10.** With `force_uniform_wavelength`, the wavelength distribution
is uniform on `[lo_wavelength - 1, hi_wavelength]` — location
`lo_wavelength - 1`, width `hi_wavelength - lo_wavelength + 1` — so its
support extends one wavelength unit below the configured lower bound
rather than covering exactly the configured range. -/
theorem uniform_wavelength_support (lo hi : ℚ) :
    (uniformSpectrumDist lo hi).supportLo = lo - 1 ∧
    (uniformSpectrumDist lo hi).supportHi = hi ∧
    (uniformSpectrumDist lo hi).scale = hi - lo + 1 ∧
    (uniformSpectrumDist lo hi).supportLo < lo := by
  refine ⟨rfl, ?_, rfl, ?_⟩
  · simp only [uniformSpectrumDist, UniformDist.supportHi]
    ring
  · simp only [uniformSpectrumDist, UniformDist.supportLo]
    linarith

/-- `SpectrumDist._cdf`: `self.spl.integral(self.a, x) / self.fudge_factor`
with `fudge_factor = self.spl.integral(self.a, self.b)`.  The scipy
spline's antiderivative is the external parameter `integ` (so
`integ a x` stands for `self.spl.integral(a, x)`). -/
def cdfSpline (integ : ℚ → ℚ → ℚ) (a b x : ℚ) : ℚ :=
  integ a x / integ a b

/-- **C5.** The cumulative function evaluates to 0 at the lower support
bound and 1 at the upper support bound: the spline integral over an empty
interval vanishes, and the normalization divides by the fudge factor,
which is exactly the spline's total integral over the support. -/
theorem cdf_bounds (integ : ℚ → ℚ → ℚ) (a b : ℚ)
    (hzero : integ a a = 0) (hfudge : integ a b ≠ 0) :
    cdfSpline integ a b a = 0 ∧ cdfSpline integ a b b = 1 := by
  constructor
  · rw [cdfSpline, hzero, zero_div]
  · rw [cdfSpline, div_self hfudge]

theorem cdf_bounds_witness :
    cdfSpline (fun u v => v - u) 0 1 0 = 0 ∧
      cdfSpline (fun u v => v - u) 0 1 1 = 1 :=
  cdf_bounds (fun u v => v - u) 0 1 (by norm_num) (by norm_num)

/-- The scalar `dx` of `ReflectSimulator.reflectivity`:
`sqrt(dlambda**2 + dtheta**2 + (0.68*rebin)**2)` over the stored
fractional resolutions. -/
noncomputable def combinedFracRes (cfg : Config) : ℝ :=
  Real.sqrt ((cfg.dlambda : ℝ) ^ 2 + (cfg.dtheta : ℝ) ^ 2 +
    ((0.68 : ℝ) * (cfg.rebin : ℝ)) ^ 2)

/-- `bin_centre = 0.5 * (wavelength_bins[1:] + wavelength_bins[:-1])`. -/
def binCentre (cfg : Config) (i : ℕ) : ℚ :=
  (cfg.wavelength_bins.getD (i + 1) 0 + cfg.wavelength_bins.getD i 0) / 2

/-- `self.q = general.q(angle, bin_centre)`, the nominal momentum
transfer of bin `i` (`general.q` is the external field `qOf`). -/
def nominalQ (cfg : Config) (i : ℕ) : ℚ :=
  cfg.qOf cfg.angle (binCentre cfg i)

/-- The q-resolution column handed to `ReflectDataset`:
`dx * self.q`, elementwise. -/
noncomputable def reflectivityXerr (cfg : Config) (i : ℕ) : ℝ :=
  combinedFracRes cfg * (nominalQ cfg i : ℝ)

/-- **C7.** The derived reflectivity dataset reports, for every bin, the
resolution width `sqrt(dlambda² + dtheta² + (0.68·rebin)²) · q_i` with
`q_i` the bin's nominal momentum transfer; equivalently its square is the
quadrature sum of the three fractional contributions times `q_i²`. -/
theorem reflectivity_resolution_width (cfg : Config) (i : ℕ) :
    reflectivityXerr cfg i =
      Real.sqrt ((cfg.dlambda : ℝ) ^ 2 + (cfg.dtheta : ℝ) ^ 2 +
        ((0.68 : ℝ) * (cfg.rebin : ℝ)) ^ 2) * (nominalQ cfg i : ℝ) ∧
    (reflectivityXerr cfg i) ^ 2 =
      ((cfg.dlambda : ℝ) ^ 2 + (cfg.dtheta : ℝ) ^ 2 +
        ((0.68 : ℝ) * (cfg.rebin : ℝ)) ^ 2) * (nominalQ cfg i : ℝ) ^ 2 := by
  constructor
  · rfl
  · rw [reflectivityXerr, combinedFracRes, mul_pow, Real.sq_sqrt (by positivity)]

/-- `self._x_interpolated_cdf = np.linspace(min(x), max(x), 1000)`: the
i-th of the 1000 evenly spaced support points, `i = 0 .. 999`. -/
def gridPoint (a b : ℚ) (i : ℕ) : ℚ := a + (b - a) * i / 999

/-- The cell search underlying `np.interp` on an increasing table `c`:
the largest index `j ≤ m` with `c j ≤ p` (0 when there is none). -/
def interpSearch (c : ℕ → ℚ) (p : ℚ) : ℕ → ℕ
  | 0 => 0
  | j + 1 => if c (j + 1) ≤ p then j + 1 else interpSearch c p j

/-- `np.interp(p, xp, fp)` over the `n + 1` table points `0 .. n` of an
increasing abscissa table `xp`: values are clamped to `fp 0` / `fp n`
outside the table and linearly interpolated within the bracketing cell
inside it. -/
def npInterp (xp fp : ℕ → ℚ) (n : ℕ) (p : ℚ) : ℚ :=
  if p ≤ xp 0 then fp 0
  else if xp n ≤ p then fp n
  else
    let j := interpSearch xp p (n - 1)
    fp j + (p - xp j) * (fp (j + 1) - fp j) / (xp (j + 1) - xp j)

/-- `SpectrumDist._ppf`: `np.interp(q, self._interpolated_cdf,
self._x_interpolated_cdf)`, where `_interpolated_cdf` holds the cdf `F`
evaluated at the 1000 grid points precomputed in `__init__`. -/
def ppfApprox (F : ℚ → ℚ) (a b p : ℚ) : ℚ :=
  npInterp (fun i => F (gridPoint a b i)) (gridPoint a b) 999 p

lemma grid_mono (g : ℕ → ℚ) (n : ℕ) (hg : ∀ t, t < n → g t < g (t + 1)) :
    ∀ i k, i ≤ k → k ≤ n → g i ≤ g k := by
  intro i k
  induction k with
  | zero =>
      intro hik _
      have h0 : i = 0 := Nat.le_zero.mp hik
      rw [h0]
  | succ m ih =>
      intro hik hkn
      rcases Nat.eq_or_lt_of_le hik with heq | hlt
      · rw [heq]
      · have h1 : g i ≤ g m := ih (Nat.lt_succ_iff.mp hlt) (by omega)
        exact le_trans h1 (le_of_lt (hg m (by omega)))

lemma grid_strict_mono (g : ℕ → ℚ) (n : ℕ)
    (hg : ∀ t, t < n → g t < g (t + 1)) :
    ∀ i k, i < k → k ≤ n → g i < g k := by
  intro i k hik hkn
  cases k with
  | zero => omega
  | succ m =>
      have h1 : g i ≤ g m :=
        grid_mono g n hg i m (Nat.lt_succ_iff.mp hik) (by omega)
      exact lt_of_le_of_lt h1 (hg m (by omega))

lemma cell_exists (g : ℕ → ℚ) (x : ℚ) :
    ∀ n, 0 < n → g 0 ≤ x → x ≤ g n →
      ∃ i, i < n ∧ g i ≤ x ∧ x ≤ g (i + 1) := by
  intro n
  induction n with
  | zero => omega
  | succ m ih =>
      intro _ h0 hn
      by_cases hgm : g m ≤ x
      · exact ⟨m, Nat.lt_succ_self m, hgm, hn⟩
      · push_neg at hgm
        have hm : 0 < m := by
          rcases Nat.eq_zero_or_pos m with h | h
          · rw [h] at hgm; exact absurd h0 (not_le.mpr hgm)
          · exact h
        obtain ⟨i, hi, h1, h2⟩ := ih hm h0 (le_of_lt hgm)
        exact ⟨i, Nat.lt_succ_of_lt hi, h1, h2⟩

lemma interpSearch_spec (c : ℕ → ℚ) (p : ℚ) (h0 : c 0 ≤ p) :
    ∀ m, interpSearch c p m ≤ m ∧ c (interpSearch c p m) ≤ p ∧
      (interpSearch c p m = m ∨ p < c (interpSearch c p m + 1)) := by
  intro m
  induction m with
  | zero => exact ⟨le_refl 0, h0, Or.inl rfl⟩
  | succ k ih =>
      by_cases h : c (k + 1) ≤ p
      · simp only [interpSearch, if_pos h]
        exact ⟨le_refl _, h, Or.inl trivial⟩
      · simp only [interpSearch, if_neg h]
        obtain ⟨ha, hb, hc⟩ := ih
        refine ⟨Nat.le_succ_of_le ha, hb, Or.inr ?_⟩
        rcases hc with hceq | hlt
        · rw [hceq]; exact lt_of_not_le h
        · exact hlt

lemma npInterp_in_cell (c g : ℕ → ℚ) (n : ℕ) (hn : 0 < n)
    (hg : ∀ t, t < n → g t < g (t + 1))
    (hcmono : ∀ s t, s ≤ t → t ≤ n → c s ≤ c t)
    (hcstrict : ∀ s t, s < t → t ≤ n → c s < c t)
    (p : ℚ) (i : ℕ) (hi : i < n)
    (hpi : c i ≤ p) (hpi1 : p ≤ c (i + 1)) :
    g i ≤ npInterp c g n p ∧ npInterp c g n p ≤ g (i + 1) := by
  by_cases h1 : p ≤ c 0
  · have hi0 : i = 0 := by
      by_contra hne
      have hlt : c 0 < c i := hcstrict 0 i (Nat.pos_of_ne_zero hne) (le_of_lt hi)
      linarith
    rw [hi0] at hpi hpi1 ⊢
    simp only [npInterp, if_pos h1]
    exact ⟨le_refl _, le_of_lt (hg 0 hn)⟩
  · by_cases h2 : c n ≤ p
    · have hi1 : i + 1 = n := by
        by_contra hne
        have hlt2 : i + 1 < n := by omega
        have : c (i + 1) < c n := hcstrict (i + 1) n hlt2 (le_refl n)
        linarith
      simp only [npInterp, if_neg h1, if_pos h2]
      constructor
      · have : g i ≤ g n := grid_mono g n hg i n (by omega) (le_refl n)
        exact this
      · rw [hi1]
    · have h1l : c 0 < p := lt_of_not_le h1
      have h2l : p < c n := lt_of_not_le h2
      simp only [npInterp, if_neg h1, if_neg h2]
      obtain ⟨hja, hjb, hjc⟩ := interpSearch_spec c p (le_of_lt h1l) (n - 1)
      set j := interpSearch c p (n - 1) with hjdef
      have hjn : j < n := by omega
      have hjp1 : p < c (j + 1) := by
        rcases hjc with hceq | hlt
        · have hj1 : j + 1 = n := by omega
          rw [hj1]; exact h2l
        · exact hlt
      have hD : 0 < c (j + 1) - c j := by linarith
      have hW : 0 < g (j + 1) - g j := by
        have := hg j hjn; linarith
      have hv1 : g j ≤ g j + (p - c j) * (g (j + 1) - g j) / (c (j + 1) - c j) := by
        have hnum : 0 ≤ (p - c j) * (g (j + 1) - g j) :=
          mul_nonneg (by linarith) (le_of_lt hW)
        have := div_nonneg hnum (le_of_lt hD)
        linarith
      have hv2 : g j + (p - c j) * (g (j + 1) - g j) / (c (j + 1) - c j) ≤ g (j + 1) := by
        have hfrac : (p - c j) * (g (j + 1) - g j) / (c (j + 1) - c j) ≤
            g (j + 1) - g j := by
          rw [div_le_iff₀ hD]
          have h3 : p - c j ≤ c (j + 1) - c j := by linarith
          calc (p - c j) * (g (j + 1) - g j)
              ≤ (c (j + 1) - c j) * (g (j + 1) - g j) :=
                mul_le_mul_of_nonneg_right h3 (le_of_lt hW)
            _ = (g (j + 1) - g j) * (c (j + 1) - c j) := by ring
        linarith
      rcases lt_trichotomy j i with hji | hji | hji
      · exfalso
        have : c (j + 1) ≤ c i := hcmono (j + 1) i (by omega) (le_of_lt hi)
        linarith
      · rw [hji] at hv1 hv2 ⊢
        exact ⟨hv1, hv2⟩
      · have hij1 : j = i + 1 := by
          by_contra hne
          have hlt2 : i + 1 < j := by omega
          have : c (i + 1) < c j := hcstrict (i + 1) j hlt2 (by omega)
          linarith
        have hpj : p = c j := by
          rw [hij1]
          have : c (i + 1) ≤ p := by rw [← hij1]; exact hjb
          linarith
        have hzero : p - c j = 0 := by rw [hpj]; ring
        rw [hzero, zero_mul, zero_div, add_zero]
        constructor
        · rw [hij1]; exact le_of_lt (hg i hi)
        · rw [hij1]

lemma gridPoint_zero (a b : ℚ) : gridPoint a b 0 = a := by
  simp [gridPoint]

lemma gridPoint_last (a b : ℚ) : gridPoint a b 999 = b := by
  rw [gridPoint]
  push_cast
  field_simp

lemma gridPoint_step (a b : ℚ) (t : ℕ) :
    gridPoint a b (t + 1) - gridPoint a b t = (b - a) / 999 := by
  rw [gridPoint, gridPoint]
  push_cast
  ring

/-- **C4.** Quantile/cumulative round trip: for every `x` in the support
`[a, b]`, `ppf (cdf x)` computed by linear interpolation into the
1000-point cumulative grid precomputed at construction differs from `x`
by at most one grid cell, `(b - a) / 999` — about 0.1% of the support
range — provided the cumulative distribution is strictly increasing on
the support (the designed situation: a positive spectral density). -/
theorem ppf_cdf_roundtrip (integ : ℚ → ℚ → ℚ) (a b x : ℚ)
    (hab : a < b) (hxa : a ≤ x) (hxb : x ≤ b)
    (hmono : ∀ y z, a ≤ y → y < z → z ≤ b →
      cdfSpline integ a b y < cdfSpline integ a b z) :
    |ppfApprox (cdfSpline integ a b) a b (cdfSpline integ a b x) - x| ≤
      (b - a) / 999 := by
  set F := cdfSpline integ a b with hFdef
  set g := gridPoint a b with hgdef
  have hg0 : g 0 = a := gridPoint_zero a b
  have hg999 : g 999 = b := gridPoint_last a b
  have hstep : ∀ t : ℕ, g (t + 1) - g t = (b - a) / 999 := gridPoint_step a b
  have hposw : (0 : ℚ) < (b - a) / 999 := by
    apply div_pos
    · linarith
    · norm_num
  have hg : ∀ t, t < 999 → g t < g (t + 1) := by
    intro t _
    have := hstep t
    linarith
  have hgm : ∀ i k, i ≤ k → k ≤ 999 → g i ≤ g k := grid_mono g 999 hg
  have hFmono : ∀ y z, a ≤ y → y ≤ z → z ≤ b → F y ≤ F z := by
    intro y z hy hyz hz
    rcases eq_or_lt_of_le hyz with he | hl
    · rw [he]
    · exact le_of_lt (hmono y z hy hl hz)
  have hcmono : ∀ s t, s ≤ t → t ≤ 999 → F (g s) ≤ F (g t) := by
    intro s t hst htn
    refine hFmono (g s) (g t) ?_ (hgm s t hst htn) ?_
    · rw [← hg0]; exact hgm 0 s (Nat.zero_le s) (le_trans hst htn)
    · rw [← hg999]; exact hgm t 999 htn (le_refl _)
  have hcstrict : ∀ s t, s < t → t ≤ 999 → F (g s) < F (g t) := by
    intro s t hst htn
    refine hmono (g s) (g t) ?_ ?_ ?_
    · rw [← hg0]; exact hgm 0 s (Nat.zero_le s) (by omega)
    · exact grid_strict_mono g 999 hg s t hst htn
    · rw [← hg999]; exact hgm t 999 htn (le_refl _)
  obtain ⟨i, hi, hxi, hxi1⟩ :=
    cell_exists g x 999 (by norm_num) (by rw [hg0]; exact hxa)
      (by rw [hg999]; exact hxb)
  have hpi : F (g i) ≤ F x := by
    refine hFmono (g i) x ?_ hxi hxb
    rw [← hg0]; exact hgm 0 i (Nat.zero_le i) (by omega)
  have hpi1 : F x ≤ F (g (i + 1)) := by
    refine hFmono x (g (i + 1)) hxa hxi1 ?_
    rw [← hg999]; exact hgm (i + 1) 999 (by omega) (le_refl _)
  have hcell := npInterp_in_cell (fun t => F (g t)) g 999 (by norm_num) hg
    hcmono hcstrict (F x) i hi hpi hpi1
  have hv : ppfApprox F a b (F x) = npInterp (fun t => F (g t)) g 999 (F x) := rfl
  rw [hv]
  have hwidth : g (i + 1) - g i = (b - a) / 999 := hstep i
  rw [abs_le]
  constructor
  · linarith [hcell.1, hxi1, hwidth]
  · linarith [hcell.2, hxi, hwidth]

theorem ppf_cdf_roundtrip_witness :
    |ppfApprox (cdfSpline (fun u v => v - u) 0 1) 0 1
        (cdfSpline (fun u v => v - u) 0 1 (1 / 2)) - 1 / 2| ≤
      (1 - 0) / 999 := by
  refine ppf_cdf_roundtrip (fun u v => v - u) 0 1 (1 / 2)
    (by norm_num) (by norm_num) (by norm_num) ?_
  intro y z hy hyz hz
  simp only [cdfSpline]
  norm_num
  exact hyz
